import Mathlib

/-!
Verification development for the CDC booking bot's decision core:
the slot-filter rule pipeline (`booking_checker.filter_practical_slots`),
the adaptive polling-mode state machine (`refreshmode.RefreshMode`),
the per-cycle reservation loop of `main`, and the backoff multiplier
threaded through `common.sleep_random`.

Machine integers are modelled as `Int`/`Nat`; Python dicts become
association lists with last-entry-wins lookup; Python sets become lists
queried only through membership; exceptions become `Except`.
-/

set_option maxHeartbeats 1000000

/-! ## Dates: `datetime.strptime(s, "%d/%b/%Y")` and `strftime("%Y-%m-%d")` -/

/-- A calendar date as produced by a successful `strptime` call. -/
structure Date where
  year : Nat
  month : Nat
  day : Nat
deriving DecidableEq, Repr

/-- ASCII lower-casing of a character (model of Python's case-insensitive
`%b` month matching; month abbreviations are ASCII). -/
def lowerChar (c : Char) : Char :=
  if 65 ≤ c.toNat ∧ c.toNat ≤ 90 then Char.ofNat (c.toNat + 32) else c

/-- ASCII upper-casing of a character (model of `str.upper()` on ASCII
weekday names). -/
def upperChar (c : Char) : Char :=
  if 97 ≤ c.toNat ∧ c.toNat ≤ 122 then Char.ofNat (c.toNat - 32) else c

/-- The month abbreviations accepted by `%b` (compared case-insensitively). -/
def monthNames : List (List Char) :=
  ["jan", "feb", "mar", "apr", "may", "jun",
   "jul", "aug", "sep", "oct", "nov", "dec"].map String.data

/-- Month number from an abbreviation, case-insensitive, as `%b` does. -/
def parseMonthChars (cs : List Char) : Option Nat :=
  match List.findIdx? (fun ab => cs.map lowerChar == ab) monthNames with
  | some i => some (i + 1)
  | none => none

/-- Numeric value of a non-empty all-digit character run. -/
def digitsVal (cs : List Char) : Option Nat :=
  if cs ≠ [] ∧ cs.all (fun c => c.isDigit) then
    some (cs.foldl (fun acc c => acc * 10 + (c.toNat - 48)) 0)
  else none

/-- Split a character list at every `/` (the literal separators of the
`%d/%b/%Y` format). -/
def splitOnSlash : List Char → List (List Char)
  | [] => [[]]
  | c :: rest =>
    let r := splitOnSlash rest
    if c = '/' then [] :: r
    else
      match r with
      | h :: t => (c :: h) :: t
      | [] => [[c]]

def isLeapYear (y : Nat) : Bool :=
  (y % 4 == 0 && y % 100 != 0) || y % 400 == 0

def daysInMonth (y m : Nat) : Nat :=
  if m = 2 then (if isLeapYear y then 29 else 28)
  else if m = 4 ∨ m = 6 ∨ m = 9 ∨ m = 11 then 30
  else 31

/-- `datetime.strptime(s, "%d/%b/%Y").date()`: day of 1–2 digits validated
against the month length, case-insensitive month abbreviation, year of at
most 4 digits with `MINYEAR = 1`.  `none` models the `ValueError` raised on
malformed input. -/
def parseDate (s : String) : Option Date :=
  match splitOnSlash s.data with
  | [ds, ms, ys] =>
    match digitsVal ds, parseMonthChars ms, digitsVal ys with
    | some d, some m, some y =>
      if ds.length ≤ 2 ∧ ys.length ≤ 4 ∧ 1 ≤ d ∧ d ≤ daysInMonth y m ∧ 1 ≤ y
      then some ⟨y, m, d⟩
      else none
    | _, _, _ => none
  | _ => none

def digitChar (n : Nat) : Char := Char.ofNat (48 + n % 10)

def padLeftZero (w : Nat) (cs : List Char) : List Char :=
  List.replicate (w - cs.length) '0' ++ cs

/-- `date.strftime("%Y-%m-%d")`: zero-padded ISO form used as dictionary key. -/
def formatISO (d : Date) : String :=
  String.mk (padLeftZero 4 (Nat.toDigits 10 d.year) ++ ['-'] ++
             padLeftZero 2 (Nat.toDigits 10 d.month) ++ ['-'] ++
             padLeftZero 2 (Nat.toDigits 10 d.day))

/-- `slot["dayname"][:3].upper()`. -/
def weekdayOf (dayname : String) : String :=
  String.mk ((dayname.data.take 3).map upperChar)

/-! ## Data model of the slot filter (`booking_checker.filter_practical_slots`) -/

/-- One scraped slot as produced by `lesson_handler.get_slot_statuses`. -/
structure Slot where
  date : String
  dayname : String
  session : Int
  element_id : String
deriving DecidableEq, Repr

/-- One existing booking (`{"date": datetime, "session": int}`). -/
structure Booking where
  date : Date
  session : Int
deriving DecidableEq, Repr

/-- The extracted configuration values the filter reads.  Python sets are
lists queried only by membership; Python dicts are association lists. -/
structure Config where
  one_slot_per_day : Bool
  excluded_dates : List String
  non_peak_sessions : List Int
  allowed_sessions : List (String × List Int)
  included_dates : List (String × List Int)
deriving Repr

/-- Python `dict` lookup on an association list built left to right:
a later binding of the same key wins. -/
def lastLookup {α : Type} (l : List (String × α)) (k : String) : Option α :=
  l.foldl (fun acc kv => if kv.1 = k then some kv.2 else acc) none

/-- The content of the upgrade notification sent by `bot.send` in rule 2:
the date and both sessions. -/
structure UpgradeMsg where
  date : Date
  new_session : Int
  current_session : Int
deriving DecidableEq, Repr

/-- Loop state of the filter: accumulated matches (in input order), the
`dates_with_a_found_slot` set, and the notifications sent so far. -/
structure FilterState where
  filtered : List Slot
  dates_found : List String
  msgs : List UpgradeMsg
deriving DecidableEq, Repr

/-- `dates_with_a_found_slot.add(date_str)` (set add: membership only). -/
def insertDate (found : List String) (ds : String) : List String :=
  if ds ∈ found then found else found ++ [ds]

/-- One iteration of the `for slot in slots` loop of
`filter_practical_slots` (booking_checker.py lines 138–187): parse the
date (a failure raises), then apply the short-circuiting rule chain
1 per-day cap, 2 existing-booking collision / upgrade, 3 included dates,
4 excluded dates, 5 weekday allowance. -/
def processSlot (cfg : Config) (booked : List (String × Int))
    (st : FilterState) (slot : Slot) : Except String FilterState :=
  match parseDate slot.date with
  | none =>
    Except.error ("time data " ++ slot.date ++ " does not match format %d/%b/%Y")
  | some d =>
    let date_str := formatISO d
    let weekday := weekdayOf slot.dayname
    let session := slot.session
    if cfg.one_slot_per_day = true ∧ date_str ∈ st.dates_found then
      Except.ok st
    else
      match lastLookup booked date_str with
      | some booked_session =>
        if session < booked_session ∧ session ∈ cfg.non_peak_sessions then
          Except.ok ⟨st.filtered ++ [slot], insertDate st.dates_found date_str,
                     st.msgs ++ [⟨d, session, booked_session⟩]⟩
        else Except.ok st
      | none =>
        match lastLookup cfg.included_dates date_str with
        | some inc =>
          if session ∈ inc then
            Except.ok ⟨st.filtered ++ [slot], insertDate st.dates_found date_str,
                       st.msgs⟩
          else Except.ok st
        | none =>
          if date_str ∈ cfg.excluded_dates then Except.ok st
          else
            let allowed := (lastLookup cfg.allowed_sessions weekday).getD []
            if allowed = [] ∨ ¬ session ∈ allowed then Except.ok st
            else
              Except.ok ⟨st.filtered ++ [slot],
                         insertDate st.dates_found date_str, st.msgs⟩

/-- The filter loop over the whole batch; the first parse failure
propagates, as the unguarded `strptime` at booking_checker.py line 139
does. -/
def runFilter (cfg : Config) (booked : List (String × Int)) :
    FilterState → List Slot → Except String FilterState
  | st, [] => Except.ok st
  | st, slot :: rest =>
    match processSlot cfg booked st slot with
    | Except.error e => Except.error e
    | Except.ok st' => runFilter cfg booked st' rest

/-- `filter_practical_slots(slots, config, existing_bookings, bot)`:
builds `booked_slots` from the existing bookings (dict comprehension,
last entry wins) and runs the rule chain over the batch, returning the
matches in order together with the upgrade notifications sent. -/
def filter_practical_slots (slots : List Slot) (cfg : Config)
    (existing : List Booking) : Except String (List Slot × List UpgradeMsg) :=
  let booked := existing.map (fun b => (formatISO b.date, b.session))
  match runFilter cfg booked ⟨[], [], []⟩ slots with
  | Except.error e => Except.error e
  | Except.ok st => Except.ok (st.filtered, st.msgs)

/-- The ISO date key of a slot, when its date parses. -/
def slotKey (s : Slot) : Option String := (parseDate s.date).map formatISO

/-- Whether an `Except` ended in the error case. -/
def exceptFailed {ε α : Type} : Except ε α → Bool
  | Except.error _ => true
  | Except.ok _ => false

/-! ## Adaptive polling-mode state machine (`refreshmode.RefreshMode`) -/

/-- The scheduler state.  `aggressive_cycles` is an `Int` so that the
floor-at-zero behaviour of `tick` is a theorem rather than a typing
artefact; timestamps are `Int` seconds. -/
structure RefreshMode where
  probe_mode : Bool
  aggressive_cycles : Int
  probe_start : Option Int
  probe_duration : Int
  aggro_range : Int × Int
deriving DecidableEq, Repr

/-- `RefreshMode.__init__(probe_duration, aggro_range)`. -/
def RefreshMode.init (pd : Int) (ar : Int × Int) : RefreshMode :=
  ⟨false, 0, none, pd, ar⟩

def in_aggressive (m : RefreshMode) : Bool := decide (0 < m.aggressive_cycles)

def in_probe (m : RefreshMode) : Bool := m.probe_mode

/-- `trigger_aggressive_mode`; `r` is the value sampled by
`random.randint(*self.aggro_range)`. -/
def trigger_aggressive_mode (m : RefreshMode) (r : Int) : RefreshMode :=
  if m.aggressive_cycles < 4 then { m with aggressive_cycles := r } else m

/-- `on_slot_detected(slots_found, filtered_slots_found)`; `r` is the
sampled aggressive-burst length and `now` the current time.  Returns the
new state and the mode string the method returns. -/
def on_slot_detected (m : RefreshMode) (sf ff : Bool) (r now : Int) :
    RefreshMode × String :=
  if ff then
    let m1 := trigger_aggressive_mode m r
    ({ m1 with probe_mode := false, probe_start := none }, "aggressive")
  else if sf && !(in_aggressive m) then
    if !m.probe_mode then
      ({ m with probe_mode := true, probe_start := some now }, "probe")
    else (m, "none")
  else (m, "none")

/-- `tick()` at time `now`: decrement the aggressive counter if positive;
then, if in probe mode with a start time and the elapsed time exceeds
`probe_duration`, exit probe. -/
def tick (m : RefreshMode) (now : Int) : RefreshMode :=
  let m1 :=
    if 0 < m.aggressive_cycles then
      { m with aggressive_cycles := m.aggressive_cycles - 1 }
    else m
  if m1.probe_mode then
    match m1.probe_start with
    | some ps =>
      if m1.probe_duration < now - ps then
        { m1 with probe_mode := false, probe_start := none }
      else m1
    | none => m1
  else m1

/-- One externally triggered scheduler operation: a cycle-outcome
transition (with its sampled burst length and timestamp) or a tick. -/
inductive SchedOp where
  | detect (sf ff : Bool) (r now : Int)
  | tickAt (now : Int)
deriving DecidableEq, Repr

def applyOp (m : RefreshMode) : SchedOp → RefreshMode
  | SchedOp.detect sf ff r now => (on_slot_detected m sf ff r now).1
  | SchedOp.tickAt now => tick m now

def runOps (m : RefreshMode) (ops : List SchedOp) : RefreshMode :=
  ops.foldl applyOp m

/-- The sampled burst length of an operation is non-negative
(`random.randint` over the constructor's range `(6, 8)` is). -/
def randNonneg : SchedOp → Prop
  | SchedOp.detect _ _ r _ => 0 ≤ r
  | SchedOp.tickAt _ => True

/-- The state invariant of the scheduler: the probe timestamp is present
exactly in probe mode, and the aggressive counter never goes negative. -/
def SchedInv (m : RefreshMode) : Prop :=
  m.probe_start.isSome = m.probe_mode ∧ 0 ≤ m.aggressive_cycles

/-! ## The per-cycle reservation loop (main.py lines 250–280) -/

/-- The closed set of reservation outcomes; `other` is the loop's silent
`else: pass` branch for any unrecognised result string. -/
inductive ReserveResult where
  | success
  | no_change
  | alert (txt : String)
  | other
deriving DecidableEq, Repr

/-- The `for slot in filtered` loop: given each candidate paired with the
outcome its `reserve_slot` call would return, produce the list of
candidates actually attempted and the `booked_slots` accumulator.
`no_change` executes `break`; `alert` and any other result `continue`. -/
def attempt_loop : List (Slot × ReserveResult) → List Slot × List Slot
  | [] => ([], [])
  | (s, r) :: rest =>
    match r with
    | ReserveResult.no_change => ([s], [])
    | ReserveResult.success =>
      let p := attempt_loop rest
      (s :: p.1, s :: p.2)
    | ReserveResult.alert _ =>
      let p := attempt_loop rest
      (s :: p.1, p.2)
    | ReserveResult.other =>
      let p := attempt_loop rest
      (s :: p.1, p.2)

/-! ## Backoff multiplier (main.py line 102, common.py `sleep_random`) -/

/-- A cycle either completes (possibly having found or booked nothing) or
fails with a cycle-level error. -/
inductive CycleOutcome where
  | completed
  | cycleError
deriving DecidableEq, Repr

/-- `backoff_multiplier = 1.0` (main.py line 102). -/
def backoff_init : Rat := 1

/-- The effect of one cycle on `backoff_multiplier`: the loop body of
`main` contains no assignment to it, so every outcome leaves it
unchanged (a cycle-level exception in fact terminates the loop without
touching it). -/
def backoff_after_cycle (b : Rat) (_ : CycleOutcome) : Rat := b

def backoff_after_cycles (b : Rat) (l : List CycleOutcome) : Rat :=
  l.foldl backoff_after_cycle b

/-- `actual_delay = delay * backoff_multiplier` (common.py line 27). -/
def sleep_actual (delay backoff : Rat) : Rat := delay * backoff

/-! ## Theorems -/

/-- **C1.** When a candidate slot's date already has an existing booking at
session `b` (and the per-day cap of rule 1 has not already fired), the
filter accepts the slot if and only if the candidate session `s`
satisfies `s < b` and `s ∈ non_peak_sessions`; on acceptance it emits
exactly one upgrade notification describing both sessions, and otherwise
it leaves the state unchanged; in both cases the outcome is independent
of the included-date, excluded-date, and weekday-allowance configuration,
so no later rule is evaluated. -/
theorem upgrade_collision_rule_c1 (cfg : Config) (booked : List (String × Int))
    (st : FilterState) (slot : Slot) (d : Date) (b : Int)
    (hd : parseDate slot.date = some d)
    (hcap : ¬ (cfg.one_slot_per_day = true ∧ formatISO d ∈ st.dates_found))
    (hb : lastLookup booked (formatISO d) = some b) :
    processSlot cfg booked st slot =
      Except.ok (if slot.session < b ∧ slot.session ∈ cfg.non_peak_sessions then
        ⟨st.filtered ++ [slot], insertDate st.dates_found (formatISO d),
         st.msgs ++ [⟨d, slot.session, b⟩]⟩
      else st) ∧
    ∀ cfg' : Config, cfg'.one_slot_per_day = cfg.one_slot_per_day →
      cfg'.non_peak_sessions = cfg.non_peak_sessions →
      processSlot cfg' booked st slot = processSlot cfg booked st slot := by
  constructor
  · simp only [processSlot, hd, hb, if_neg hcap]
    split <;> rfl
  · intro cfg' h1 h2
    simp only [processSlot, hd, hb, h1, h2, if_neg hcap]

/-- **C1 witness**: Scenario C — existing booking on 01/Jan/2025 at
session 5, candidate session 3, `non_peak_sessions = {1,3,4}`: the slot
is accepted and one upgrade notification naming sessions 3 and 5 fires. -/
theorem upgrade_collision_rule_c1_witness :
    processSlot ⟨false, [], [1, 3, 4], [], []⟩ [("2025-01-01", 5)]
        ⟨[], [], []⟩ ⟨"01/Jan/2025", "Wednesday", 3, "e1"⟩ =
      Except.ok ⟨[⟨"01/Jan/2025", "Wednesday", 3, "e1"⟩], ["2025-01-01"],
                 [⟨⟨2025, 1, 1⟩, 3, 5⟩]⟩ := by
  have h := (upgrade_collision_rule_c1 ⟨false, [], [1, 3, 4], [], []⟩
    [("2025-01-01", 5)] ⟨[], [], []⟩ ⟨"01/Jan/2025", "Wednesday", 3, "e1"⟩
    ⟨2025, 1, 1⟩ 5 (by decide) (by decide) (by decide)).1
  rw [h]
  rfl

/-- **C2.** A slot whose date has an included-dates entry listing the
candidate session is accepted (when neither rule 1 nor rule 2 fires
first), for every configuration — in particular when the same date is in
`excluded_dates` and when the weekday has no allowed-session entry. -/
theorem included_override_c2 (cfg : Config) (booked : List (String × Int))
    (st : FilterState) (slot : Slot) (d : Date) (inc : List Int)
    (hd : parseDate slot.date = some d)
    (hcap : ¬ (cfg.one_slot_per_day = true ∧ formatISO d ∈ st.dates_found))
    (hb : lastLookup booked (formatISO d) = none)
    (hinc : lastLookup cfg.included_dates (formatISO d) = some inc)
    (hs : slot.session ∈ inc) :
    processSlot cfg booked st slot =
      Except.ok ⟨st.filtered ++ [slot], insertDate st.dates_found (formatISO d),
                 st.msgs⟩ := by
  simp only [processSlot, hd, hb, hinc, if_neg hcap, if_pos hs]

/-- **C2 witness**: 01/Jan/2025 session 3 is in `included_dates` while the
same date is in `excluded_dates` and `allowed_sessions` is empty: the
slot is still accepted. -/
theorem included_override_c2_witness :
    processSlot ⟨false, ["2025-01-01"], [1, 3, 4], [], [("2025-01-01", [3])]⟩
        [] ⟨[], [], []⟩ ⟨"01/Jan/2025", "Wednesday", 3, "e1"⟩ =
      Except.ok ⟨[⟨"01/Jan/2025", "Wednesday", 3, "e1"⟩], ["2025-01-01"], []⟩ := by
  have h := included_override_c2
    ⟨false, ["2025-01-01"], [1, 3, 4], [], [("2025-01-01", [3])]⟩ []
    ⟨[], [], []⟩ ⟨"01/Jan/2025", "Wednesday", 3, "e1"⟩ ⟨2025, 1, 1⟩ [3]
    (by decide) (by decide) (by decide) (by decide) (by decide)
  rw [h]
  rfl

/-- **C10.** A slot whose date has an included-dates entry that does NOT
list the candidate session is rejected with the state unchanged (when
neither rule 1 nor rule 2 fires first), for every configuration — in
particular when the weekday allowance would accept it and the date is
not excluded: the included-dates session set is the sole criterion for
that date. -/
theorem included_sole_criterion_c10 (cfg : Config) (booked : List (String × Int))
    (st : FilterState) (slot : Slot) (d : Date) (inc : List Int)
    (hd : parseDate slot.date = some d)
    (hcap : ¬ (cfg.one_slot_per_day = true ∧ formatISO d ∈ st.dates_found))
    (hb : lastLookup booked (formatISO d) = none)
    (hinc : lastLookup cfg.included_dates (formatISO d) = some inc)
    (hs : ¬ slot.session ∈ inc) :
    processSlot cfg booked st slot = Except.ok st := by
  simp only [processSlot, hd, hb, hinc, if_neg hcap, if_neg hs]

/-- **C10 witness**: 01/Jan/2025 has included sessions `{3}`; candidate
session 2 is rejected even though `allowed_sessions` maps WED to `{2}`
and the date is not excluded. -/
theorem included_sole_criterion_c10_witness :
    processSlot ⟨false, [], [1, 3, 4], [("WED", [2])], [("2025-01-01", [3])]⟩
        [] ⟨[], [], []⟩ ⟨"01/Jan/2025", "Wednesday", 2, "e1"⟩ =
      Except.ok ⟨[], [], []⟩ :=
  included_sole_criterion_c10
    ⟨false, [], [1, 3, 4], [("WED", [2])], [("2025-01-01", [3])]⟩ []
    ⟨[], [], []⟩ ⟨"01/Jan/2025", "Wednesday", 2, "e1"⟩ ⟨2025, 1, 1⟩ [3]
    (by decide) (by decide) (by decide) (by decide) (by decide)

/-! ### Per-day cap: helper lemmas -/

/-- No two matched slots share an ISO date key. -/
def DistinctKeys (l : List Slot) : Prop :=
  l.Pairwise (fun a b => slotKey a ≠ slotKey b)

/-- Loop invariant of the filter under `one_slot_per_day`: matched slots
have pairwise-distinct date keys, and every matched slot's key is in the
`dates_with_a_found_slot` set. -/
def FilterInv (st : FilterState) : Prop :=
  DistinctKeys st.filtered ∧
  ∀ s ∈ st.filtered, ∀ k, slotKey s = some k → k ∈ st.dates_found

theorem mem_insertDate (found : List String) (ds k : String) :
    k ∈ insertDate found ds ↔ k ∈ found ∨ k = ds := by
  unfold insertDate
  split
  · rename_i hin
    constructor
    · exact Or.inl
    · rintro (h | rfl)
      · exact h
      · exact hin
  · simp

/-- Case analysis of one filter-loop iteration: either the state is
unchanged, or the slot's date parses, the per-day cap did not fire, the
slot is appended and its key is added. -/
theorem processSlot_cases (cfg : Config) (booked : List (String × Int))
    (st : FilterState) (slot : Slot) (st' : FilterState)
    (h : processSlot cfg booked st slot = Except.ok st') :
    st' = st ∨ ∃ d, parseDate slot.date = some d ∧
      ¬ (cfg.one_slot_per_day = true ∧ formatISO d ∈ st.dates_found) ∧
      st'.filtered = st.filtered ++ [slot] ∧
      st'.dates_found = insertDate st.dates_found (formatISO d) := by
  cases hp : parseDate slot.date with
  | none =>
    simp only [processSlot, hp] at h
    exact Except.noConfusion h
  | some d =>
    simp only [processSlot, hp] at h
    split at h
    · left
      injection h with h
      exact h.symm
    · rename_i hc
      split at h
      · split at h
        · injection h with h
          right
          exact ⟨d, rfl, hc, by rw [← h], by rw [← h]⟩
        · left
          injection h with h
          exact h.symm
      · split at h
        · split at h
          · injection h with h
            right
            exact ⟨d, rfl, hc, by rw [← h], by rw [← h]⟩
          · left
            injection h with h
            exact h.symm
        · split at h
          · left
            injection h with h
            exact h.symm
          · split at h
            · left
              injection h with h
              exact h.symm
            · injection h with h
              right
              exact ⟨d, rfl, hc, by rw [← h], by rw [← h]⟩

theorem filterInv_step (cfg : Config) (booked : List (String × Int))
    (st : FilterState) (slot : Slot) (st' : FilterState)
    (hone : cfg.one_slot_per_day = true)
    (h : processSlot cfg booked st slot = Except.ok st')
    (hinv : FilterInv st) : FilterInv st' := by
  rcases processSlot_cases cfg booked st slot st' h with rfl | ⟨d, hp, hc, hf, hds⟩
  · exact hinv
  · have hnew : formatISO d ∉ st.dates_found := fun hmem => hc ⟨hone, hmem⟩
    rcases hinv with ⟨hdk, hmem⟩
    constructor
    · rw [DistinctKeys, hf]
      refine List.pairwise_append.mpr ⟨hdk, List.pairwise_singleton _ _, ?_⟩
      intro a ha b hb
      have hbs : b = slot := List.mem_singleton.mp hb
      have hsl : slotKey slot = some (formatISO d) := by
        rw [slotKey, hp]
        rfl
      rw [hbs, hsl]
      cases hka : slotKey a with
      | none => exact fun he => Option.noConfusion he
      | some k =>
        have hk1 := hmem a ha k hka
        have hk2 : k ≠ formatISO d := fun he => hnew (he ▸ hk1)
        exact fun he => hk2 (Option.some.inj he)
    · rw [hf, hds]
      intro s hs k hk
      rcases List.mem_append.mp hs with hs | hs
      · exact (mem_insertDate _ _ _).mpr (Or.inl (hmem s hs k hk))
      · rcases List.mem_singleton.mp hs with rfl
        have : k = formatISO d := by
          rw [slotKey, hp] at hk
          exact (Option.some.inj hk).symm
        exact (mem_insertDate _ _ _).mpr (Or.inr this)

theorem runFilter_inv (cfg : Config) (booked : List (String × Int))
    (hone : cfg.one_slot_per_day = true) :
    ∀ (slots : List Slot) (st st' : FilterState),
      runFilter cfg booked st slots = Except.ok st' → FilterInv st →
      FilterInv st' := by
  intro slots
  induction slots with
  | nil =>
    intro st st' h hi
    simp only [runFilter] at h
    injection h with h
    exact h ▸ hi
  | cons slot rest ih =>
    intro st st' h hi
    cases hps : processSlot cfg booked st slot with
    | error e =>
      simp only [runFilter, hps] at h
      exact Except.noConfusion h
    | ok st1 =>
      simp only [runFilter, hps] at h
      exact ih st1 st' h (filterInv_step cfg booked st slot st1 hone hps hi)

theorem countP_le_one_of_distinct (l : List Slot) (hdk : DistinctKeys l)
    (ds : String) :
    l.countP (fun s => decide (slotKey s = some ds)) ≤ 1 := by
  induction l with
  | nil => simp
  | cons a t ih =>
    rcases List.pairwise_cons.mp hdk with ⟨ha, ht⟩
    by_cases hk : slotKey a = some ds
    · have hz : t.countP (fun s => decide (slotKey s = some ds)) = 0 := by
        rw [List.countP_eq_zero]
        intro b hb
        simp only [decide_eq_true_eq]
        intro hbk
        exact ha b hb (by rw [hk, hbk])
      rw [List.countP_cons_of_pos _ _ (by simpa using hk), hz]
    · rw [List.countP_cons_of_neg _ _ (by simpa using hk)]
      exact ih ht

/-- **C3.** If `one_slot_per_day` is set, the filter's output contains at
most one slot per date: the first match for a date suppresses all later
candidates for that date within the same call. -/
theorem per_day_cap_c3 (slots : List Slot) (cfg : Config)
    (existing : List Booking) (fl : List Slot) (msgs : List UpgradeMsg)
    (hone : cfg.one_slot_per_day = true)
    (h : filter_practical_slots slots cfg existing = Except.ok (fl, msgs)) :
    (∀ ds : String, fl.countP (fun s => decide (slotKey s = some ds)) ≤ 1) ∧
    (∀ (booked : List (String × Int)) (st : FilterState) (slot : Slot) (d : Date),
      parseDate slot.date = some d → formatISO d ∈ st.dates_found →
      processSlot cfg booked st slot = Except.ok st) := by
  refine ⟨?_, ?_⟩
  case refine_2 =>
    intro booked st slot d hp hmem
    simp only [processSlot, hp, if_pos (And.intro hone hmem)]
  intro ds
  simp only [filter_practical_slots] at h
  cases hr : runFilter cfg (existing.map fun b => (formatISO b.date, b.session))
      ⟨[], [], []⟩ slots with
  | error e =>
    rw [hr] at h
    exact Except.noConfusion h
  | ok st =>
    rw [hr] at h
    injection h with h
    have hfl : st.filtered = fl := congrArg Prod.fst h
    have hinv := runFilter_inv cfg _ hone slots ⟨[], [], []⟩ st hr
      ⟨List.Pairwise.nil, fun s hs => absurd hs (List.not_mem_nil s)⟩
    exact hfl ▸ countP_le_one_of_distinct st.filtered hinv.1 ds

/-- **C3 witness**: two 01/Jan/2025 candidates both allowed on WED; with
`one_slot_per_day = true` the output keeps at most one slot for that date. -/
theorem per_day_cap_c3_witness :
    List.countP (fun s => decide (slotKey s = some "2025-01-01"))
      [(⟨"01/Jan/2025", "Wednesday", 3, "e1"⟩ : Slot)] ≤ 1 :=
  (per_day_cap_c3
    [⟨"01/Jan/2025", "Wednesday", 3, "e1"⟩, ⟨"01/Jan/2025", "Wednesday", 4, "e2"⟩]
    ⟨true, [], [1, 3, 4], [("WED", [3, 4])], []⟩ []
    [⟨"01/Jan/2025", "Wednesday", 3, "e1"⟩] [] rfl (by rfl)).1 "2025-01-01"

/-! ### Malformed slots abort the batch -/

theorem runFilter_err (cfg : Config) (booked : List (String × Int)) :
    ∀ (slots : List Slot) (st : FilterState) (s : Slot),
      s ∈ slots → parseDate s.date = none →
      exceptFailed (runFilter cfg booked st slots) = true := by
  intro slots
  induction slots with
  | nil =>
    intro st s hs
    exact absurd hs (List.not_mem_nil s)
  | cons a rest ih =>
    intro st s hs hp
    rcases List.mem_cons.mp hs with rfl | hs
    · simp only [runFilter, processSlot, hp]
      rfl
    · cases hps : processSlot cfg booked st a with
      | error e =>
        simp only [runFilter, hps]
        rfl
      | ok st1 =>
        simp only [runFilter, hps]
        exact ih st1 s hs hp

/-- **C4 counterexample.** The claim that a malformed slot is dropped with
the rest of the batch unaffected is false: a batch holding a malformed
slot and a valid slot makes `filter_practical_slots` raise (return the
parse error), while the batch without the malformed slot returns the
valid match — the results differ, and the first call returns no matches
at all. -/
theorem malformed_slot_c4_counterexample :
    filter_practical_slots
        [⟨"bad-date", "Wednesday", 3, "e1"⟩, ⟨"01/Jan/2025", "Wednesday", 3, "e2"⟩]
        ⟨false, [], [1, 3, 4], [("WED", [3])], []⟩ [] =
      Except.error "time data bad-date does not match format %d/%b/%Y" ∧
    filter_practical_slots [⟨"01/Jan/2025", "Wednesday", 3, "e2"⟩]
        ⟨false, [], [1, 3, 4], [("WED", [3])], []⟩ [] =
      Except.ok ([⟨"01/Jan/2025", "Wednesday", 3, "e2"⟩], []) :=
  ⟨rfl, rfl⟩

/-- **C4 (amended).** A slot with a malformed date field makes
`filter_practical_slots` fail as a whole: the `strptime` call at the top
of its loop is unguarded, so the `ValueError` propagates and no result is
produced for any slot of the batch.  (Per-row drop-and-continue on parse
failure exists only in `get_all_manual_bookings`, not in the filter.) -/
theorem malformed_slot_c4_amended (slots : List Slot) (cfg : Config)
    (existing : List Booking) (s : Slot)
    (hs : s ∈ slots) (hp : parseDate s.date = none) :
    exceptFailed (filter_practical_slots slots cfg existing) = true := by
  have herr := runFilter_err cfg
    (existing.map fun b => (formatISO b.date, b.session)) slots ⟨[], [], []⟩ s hs hp
  simp only [filter_practical_slots]
  cases hr : runFilter cfg (existing.map fun b => (formatISO b.date, b.session))
      ⟨[], [], []⟩ slots with
  | error e => rfl
  | ok st =>
    rw [hr] at herr
    exact absurd herr (by simp [exceptFailed])

/-- **C4 (amended) witness**: a single malformed slot makes the whole
filter call fail. -/
theorem malformed_slot_c4_amended_witness :
    exceptFailed (filter_practical_slots [⟨"32/Jan/2025", "Wednesday", 3, "e1"⟩]
      ⟨false, [], [1, 3, 4], [("WED", [3])], []⟩ []) = true :=
  malformed_slot_c4_amended [⟨"32/Jan/2025", "Wednesday", 3, "e1"⟩]
    ⟨false, [], [1, 3, 4], [("WED", [3])], []⟩ []
    ⟨"32/Jan/2025", "Wednesday", 3, "e1"⟩ (by decide) (by decide)

/-! ### Adaptive scheduler -/

/-- **C5.** On a cycle outcome with `filteredMatchesFound = true` the
scheduler returns Aggressive with a positive remaining count: the count
is re-armed to the sampled `randint(minAggro, maxAggro)` value exactly
when it was below 4 before the call, and preserved unchanged when it was
already ≥ 4; the probe state is cleared in both cases. -/
theorem aggressive_rearm_c5 (m : RefreshMode) (sf : Bool) (r now : Int)
    (hr1 : m.aggro_range.1 ≤ r) (hr2 : r ≤ m.aggro_range.2)
    (hmin : 0 < m.aggro_range.1) :
    (on_slot_detected m sf true r now).2 = "aggressive" ∧
    (on_slot_detected m sf true r now).1.aggressive_cycles =
      (if m.aggressive_cycles < 4 then r else m.aggressive_cycles) ∧
    0 < (on_slot_detected m sf true r now).1.aggressive_cycles ∧
    (on_slot_detected m sf true r now).1.probe_mode = false ∧
    (on_slot_detected m sf true r now).1.probe_start = none := by
  have hr : 0 < r := lt_of_lt_of_le hmin hr1
  obtain ⟨pm, ac, pstart, pd, ar⟩ := m
  by_cases h4 : ac < 4
  · have hstep : on_slot_detected ⟨pm, ac, pstart, pd, ar⟩ sf true r now =
        (⟨false, r, none, pd, ar⟩, "aggressive") := by
      simp [on_slot_detected, trigger_aggressive_mode, h4]
    rw [hstep]
    exact ⟨rfl, (if_pos h4).symm, hr, rfl, rfl⟩
  · have hstep : on_slot_detected ⟨pm, ac, pstart, pd, ar⟩ sf true r now =
        (⟨false, ac, none, pd, ar⟩, "aggressive") := by
      simp [on_slot_detected, trigger_aggressive_mode, h4]
    rw [hstep]
    refine ⟨rfl, (if_neg h4).symm, ?_, rfl, rfl⟩
    show (0 : Int) < ac
    omega

/-- **C5 witness**: a scheduler with 1 aggressive cycle left and active
probe state re-arms to the sampled value 7 and clears probe. -/
theorem aggressive_rearm_c5_witness :
    (on_slot_detected ⟨true, 1, some 0, 10, (6, 8)⟩ true true 7 50).2 = "aggressive" ∧
    (on_slot_detected ⟨true, 1, some 0, 10, (6, 8)⟩ true true 7 50).1.aggressive_cycles =
      (if (1 : Int) < 4 then 7 else 1) ∧
    0 < (on_slot_detected ⟨true, 1, some 0, 10, (6, 8)⟩ true true 7 50).1.aggressive_cycles ∧
    (on_slot_detected ⟨true, 1, some 0, 10, (6, 8)⟩ true true 7 50).1.probe_mode = false ∧
    (on_slot_detected ⟨true, 1, some 0, 10, (6, 8)⟩ true true 7 50).1.probe_start = none :=
  aggressive_rearm_c5 ⟨true, 1, some 0, 10, (6, 8)⟩ true 7 50
    (by decide) (by decide) (by decide)

/-- **C6.** Probe is entered (the probe flag turns from off to on) only on
a cycle outcome with `slotsFound = true`, `filteredMatchesFound = false`
and the scheduler not Aggressive, and then `probe_start` is set to the
current time and "probe" is returned; and from any probe state with a
start timestamp, a `tick` whose elapsed time exceeds `probe_duration`
exits probe, clearing both the flag and the timestamp. -/
theorem probe_entry_exit_c6 :
    (∀ (m : RefreshMode) (sf ff : Bool) (r now : Int),
      m.probe_mode = false →
      (on_slot_detected m sf ff r now).1.probe_mode = true →
      sf = true ∧ ff = false ∧ ¬ 0 < m.aggressive_cycles ∧
      (on_slot_detected m sf ff r now).1.probe_start = some now ∧
      (on_slot_detected m sf ff r now).2 = "probe") ∧
    (∀ (m : RefreshMode) (ps now : Int),
      m.probe_mode = true → m.probe_start = some ps →
      m.probe_duration < now - ps →
      (tick m now).probe_mode = false ∧ (tick m now).probe_start = none) := by
  constructor
  · intro m sf ff r now hpm hentry
    obtain ⟨pm, ac, pstart, pd, ar⟩ := m
    have hpm' : pm = false := hpm
    subst hpm'
    cases ff with
    | true =>
      exact absurd hentry (by simp [on_slot_detected])
    | false =>
      cases sf with
      | false =>
        exact absurd hentry (by simp [on_slot_detected])
      | true =>
        by_cases hag : 0 < ac
        · exact absurd hentry (by simp [on_slot_detected, in_aggressive, hag])
        · have hstep : on_slot_detected ⟨false, ac, pstart, pd, ar⟩ true false r now =
              (⟨true, ac, some now, pd, ar⟩, "probe") := by
            simp [on_slot_detected, in_aggressive, hag]
          rw [hstep]
          exact ⟨rfl, rfl, hag, rfl, rfl⟩
  · intro m ps now hpm hps hel
    obtain ⟨pm, ac, pstart, pd, ar⟩ := m
    have hpm' : pm = true := hpm
    have hps' : pstart = some ps := hps
    subst hpm'
    subst hps'
    by_cases hac : 0 < ac
    · have hstep : tick ⟨true, ac, some ps, pd, ar⟩ now =
          ⟨false, ac - 1, none, pd, ar⟩ := by
        simp [tick, hac, hel]
      rw [hstep]
      exact ⟨rfl, rfl⟩
    · have hstep : tick ⟨true, ac, some ps, pd, ar⟩ now =
          ⟨false, ac, none, pd, ar⟩ := by
        simp [tick, hac, hel]
      rw [hstep]
      exact ⟨rfl, rfl⟩

/-- **C6 witness**: from a fresh scheduler, a slots-found / no-match cycle
enters probe at time 5; a tick at time 16 (elapsed 11 > duration 10)
exits probe. -/
theorem probe_entry_exit_c6_witness :
    (true = true ∧ false = false ∧ ¬ (0 : Int) < 0 ∧
      (on_slot_detected (RefreshMode.init 10 (6, 8)) true false 7 5).1.probe_start = some 5 ∧
      (on_slot_detected (RefreshMode.init 10 (6, 8)) true false 7 5).2 = "probe") ∧
    ((tick ⟨true, 0, some 5, 10, (6, 8)⟩ 16).probe_mode = false ∧
      (tick ⟨true, 0, some 5, 10, (6, 8)⟩ 16).probe_start = none) :=
  ⟨probe_entry_exit_c6.1 (RefreshMode.init 10 (6, 8)) true false 7 5 rfl rfl,
   probe_entry_exit_c6.2 ⟨true, 0, some 5, 10, (6, 8)⟩ 5 16 rfl rfl (by decide)⟩

theorem schedInv_step (m : RefreshMode) (op : SchedOp) (hm : SchedInv m)
    (hr : randNonneg op) : SchedInv (applyOp m op) := by
  obtain ⟨pm, ac, pstart, pd, ar⟩ := m
  obtain ⟨h1, h2⟩ := hm
  have h1' : pstart.isSome = pm := h1
  have h2' : (0 : Int) ≤ ac := h2
  cases op with
  | detect sf ff r now =>
    have hr' : (0 : Int) ≤ r := hr
    cases ff with
    | true =>
      by_cases h4 : ac < 4
      · have hstep : applyOp ⟨pm, ac, pstart, pd, ar⟩ (SchedOp.detect sf true r now) =
            ⟨false, r, none, pd, ar⟩ := by
          simp [applyOp, on_slot_detected, trigger_aggressive_mode, h4]
        rw [hstep]
        exact ⟨rfl, hr'⟩
      · have hstep : applyOp ⟨pm, ac, pstart, pd, ar⟩ (SchedOp.detect sf true r now) =
            ⟨false, ac, none, pd, ar⟩ := by
          simp [applyOp, on_slot_detected, trigger_aggressive_mode, h4]
        rw [hstep]
        exact ⟨rfl, h2'⟩
    | false =>
      cases sf with
      | false => exact ⟨h1, h2⟩
      | true =>
        by_cases hag : 0 < ac
        · have hstep : applyOp ⟨pm, ac, pstart, pd, ar⟩ (SchedOp.detect true false r now) =
              ⟨pm, ac, pstart, pd, ar⟩ := by
            simp [applyOp, on_slot_detected, in_aggressive, hag]
          rw [hstep]
          exact ⟨h1, h2⟩
        · cases pm with
          | true =>
            have hstep : applyOp ⟨true, ac, pstart, pd, ar⟩ (SchedOp.detect true false r now) =
                ⟨true, ac, pstart, pd, ar⟩ := by
              simp [applyOp, on_slot_detected, in_aggressive, hag]
            rw [hstep]
            exact ⟨h1, h2⟩
          | false =>
            have hstep : applyOp ⟨false, ac, pstart, pd, ar⟩ (SchedOp.detect true false r now) =
                ⟨true, ac, some now, pd, ar⟩ := by
              simp [applyOp, on_slot_detected, in_aggressive, hag]
            rw [hstep]
            exact ⟨rfl, h2'⟩
  | tickAt now =>
    cases pstart with
    | none =>
      have hpm : pm = false := by
        rw [← h1']
        rfl
      subst hpm
      by_cases hac : 0 < ac
      · have hstep : applyOp ⟨false, ac, none, pd, ar⟩ (SchedOp.tickAt now) =
            ⟨false, ac - 1, none, pd, ar⟩ := by
          simp [applyOp, tick, hac]
        rw [hstep]
        exact ⟨rfl, by show (0 : Int) ≤ ac - 1; omega⟩
      · have hstep : applyOp ⟨false, ac, none, pd, ar⟩ (SchedOp.tickAt now) =
            ⟨false, ac, none, pd, ar⟩ := by
          simp [applyOp, tick, hac]
        rw [hstep]
        exact ⟨rfl, h2'⟩
    | some ps =>
      have hpm : pm = true := by
        rw [← h1']
        rfl
      subst hpm
      by_cases hac : 0 < ac
      · by_cases hel : pd < now - ps
        · have hstep : applyOp ⟨true, ac, some ps, pd, ar⟩ (SchedOp.tickAt now) =
              ⟨false, ac - 1, none, pd, ar⟩ := by
            simp [applyOp, tick, hac, hel]
          rw [hstep]
          exact ⟨rfl, by show (0 : Int) ≤ ac - 1; omega⟩
        · have hstep : applyOp ⟨true, ac, some ps, pd, ar⟩ (SchedOp.tickAt now) =
              ⟨true, ac - 1, some ps, pd, ar⟩ := by
            simp [applyOp, tick, hac, hel]
          rw [hstep]
          exact ⟨rfl, by show (0 : Int) ≤ ac - 1; omega⟩
      · by_cases hel : pd < now - ps
        · have hstep : applyOp ⟨true, ac, some ps, pd, ar⟩ (SchedOp.tickAt now) =
              ⟨false, ac, none, pd, ar⟩ := by
            simp [applyOp, tick, hac, hel]
          rw [hstep]
          exact ⟨rfl, h2'⟩
        · have hstep : applyOp ⟨true, ac, some ps, pd, ar⟩ (SchedOp.tickAt now) =
              ⟨true, ac, some ps, pd, ar⟩ := by
            simp [applyOp, tick, hac, hel]
          rw [hstep]
          exact ⟨rfl, h2'⟩

/-- **C7.** Construction establishes the scheduler invariant — the probe
timestamp is present exactly when the probe flag is set, and the
aggressive counter is never negative — every sequence of cycle-outcome
transitions and ticks preserves it, and `tick` decrements the counter
with a floor of exactly 0. -/
theorem sched_invariant_c7 :
    (∀ (pd : Int) (ar : Int × Int), SchedInv (RefreshMode.init pd ar)) ∧
    (∀ (m : RefreshMode) (ops : List SchedOp), SchedInv m →
      (∀ op ∈ ops, randNonneg op) → SchedInv (runOps m ops)) ∧
    (∀ (m : RefreshMode) (now : Int), 0 ≤ m.aggressive_cycles →
      (tick m now).aggressive_cycles = max (m.aggressive_cycles - 1) 0) := by
  refine ⟨fun pd ar => ⟨rfl, le_refl 0⟩, ?_, ?_⟩
  · intro m ops
    induction ops generalizing m with
    | nil => intro hm _; exact hm
    | cons op rest ih =>
      intro hm hops
      exact ih (applyOp m op) (schedInv_step m op hm (hops op (List.mem_cons_self op rest)))
        (fun o ho => hops o (List.mem_cons_of_mem op ho))
  · intro m now hge
    obtain ⟨pm, ac, pstart, pd, ar⟩ := m
    have hge' : (0 : Int) ≤ ac := hge
    by_cases hac : 0 < ac
    · have h1 : (tick ⟨pm, ac, pstart, pd, ar⟩ now).aggressive_cycles = ac - 1 := by
        cases pm with
        | false => simp [tick, hac]
        | true =>
          cases pstart with
          | none => simp [tick, hac]
          | some ps =>
            by_cases hel : pd < now - ps <;> simp [tick, hac, hel]
      rw [h1]
      show ac - 1 = max (ac - 1) 0
      omega
    · have h1 : (tick ⟨pm, ac, pstart, pd, ar⟩ now).aggressive_cycles = ac := by
        cases pm with
        | false => simp [tick, hac]
        | true =>
          cases pstart with
          | none => simp [tick, hac]
          | some ps =>
            by_cases hel : pd < now - ps <;> simp [tick, hac, hel]
      rw [h1]
      show ac = max (ac - 1) 0
      omega

/-- **C7 witness**: starting from a freshly constructed scheduler, a
slots-found transition followed by an aggressive re-arm and two ticks
keeps the invariant. -/
theorem sched_invariant_c7_witness :
    SchedInv (runOps (RefreshMode.init 10 (6, 8))
      [SchedOp.detect true false 7 0, SchedOp.detect true true 7 1,
       SchedOp.tickAt 2, SchedOp.tickAt 3]) :=
  sched_invariant_c7.2.1 (RefreshMode.init 10 (6, 8))
    [SchedOp.detect true false 7 0, SchedOp.detect true true 7 1,
     SchedOp.tickAt 2, SchedOp.tickAt 3]
    (sched_invariant_c7.1 10 (6, 8))
    (by intro op hop; fin_cases hop <;> simp [randNonneg])

/-! ### Reservation loop ordering -/

/-- **C8.** Within one cycle the candidates are attempted strictly in
filtered order: the attempted list is a prefix of the filtered list; if
the attempt at index `k` returns `no_change`, no candidate after index
`k` is attempted (the attempted list stops at `k + 1` entries); and when
no attempt returns `no_change` — alerts and errors included — every
candidate is attempted. -/
theorem reservation_order_c8 (l : List (Slot × ReserveResult)) :
    (∃ t, l.map Prod.fst = (attempt_loop l).1 ++ t) ∧
    (∀ (k : Nat) (hk : k < l.length),
      (l.get ⟨k, hk⟩).2 = ReserveResult.no_change →
      (attempt_loop l).1.length ≤ k + 1) ∧
    ((∀ p ∈ l, p.2 ≠ ReserveResult.no_change) →
      (attempt_loop l).1 = l.map Prod.fst) := by
  induction l with
  | nil => exact ⟨⟨[], rfl⟩, fun k hk => absurd hk (by simp), fun _ => rfl⟩
  | cons p rest ih =>
    obtain ⟨s, r⟩ := p
    obtain ⟨⟨t, ht⟩, htrunc, hall⟩ := ih
    cases r with
    | no_change =>
      refine ⟨⟨rest.map Prod.fst, rfl⟩, ?_, ?_⟩
      · intro k hk _
        show ([s].length : Nat) ≤ k + 1
        simp
      · intro hnone
        exact absurd rfl (hnone (s, ReserveResult.no_change) (List.mem_cons_self _ _))
    | success =>
      refine ⟨⟨t, ?_⟩, ?_, ?_⟩
      · show s :: rest.map Prod.fst = s :: ((attempt_loop rest).1 ++ t)
        rw [← ht]
      · intro k hk hkn
        cases k with
        | zero => exact absurd hkn (by simp)
        | succ k' =>
          have := htrunc k' (by simpa using hk) (by simpa using hkn)
          show ((s :: (attempt_loop rest).1).length : Nat) ≤ k' + 1 + 1
          simp only [List.length_cons]
          omega
      · intro hnone
        have := hall (fun q hq => hnone q (List.mem_cons_of_mem _ hq))
        show s :: (attempt_loop rest).1 = s :: rest.map Prod.fst
        rw [this]
    | alert txt =>
      refine ⟨⟨t, ?_⟩, ?_, ?_⟩
      · show s :: rest.map Prod.fst = s :: ((attempt_loop rest).1 ++ t)
        rw [← ht]
      · intro k hk hkn
        cases k with
        | zero => exact absurd hkn (by simp)
        | succ k' =>
          have := htrunc k' (by simpa using hk) (by simpa using hkn)
          show ((s :: (attempt_loop rest).1).length : Nat) ≤ k' + 1 + 1
          simp only [List.length_cons]
          omega
      · intro hnone
        have := hall (fun q hq => hnone q (List.mem_cons_of_mem _ hq))
        show s :: (attempt_loop rest).1 = s :: rest.map Prod.fst
        rw [this]
    | other =>
      refine ⟨⟨t, ?_⟩, ?_, ?_⟩
      · show s :: rest.map Prod.fst = s :: ((attempt_loop rest).1 ++ t)
        rw [← ht]
      · intro k hk hkn
        cases k with
        | zero => exact absurd hkn (by simp)
        | succ k' =>
          have := htrunc k' (by simpa using hk) (by simpa using hkn)
          show ((s :: (attempt_loop rest).1).length : Nat) ≤ k' + 1 + 1
          simp only [List.length_cons]
          omega
      · intro hnone
        have := hall (fun q hq => hnone q (List.mem_cons_of_mem _ hq))
        show s :: (attempt_loop rest).1 = s :: rest.map Prod.fst
        rw [this]

/-- **C8 witness**: Scenario D — three filtered candidates where the 2nd
reservation returns `no_change`: at most the first two are attempted, so
the 3rd is never attempted this cycle. -/
theorem reservation_order_c8_witness :
    (attempt_loop
      [(⟨"01/Jan/2025", "Wednesday", 3, "e1"⟩, ReserveResult.success),
       (⟨"02/Jan/2025", "Thursday", 3, "e2"⟩, ReserveResult.no_change),
       (⟨"03/Jan/2025", "Friday", 3, "e3"⟩, ReserveResult.success)]).1.length ≤ 2 :=
  (reservation_order_c8
    [(⟨"01/Jan/2025", "Wednesday", 3, "e1"⟩, ReserveResult.success),
     (⟨"02/Jan/2025", "Thursday", 3, "e2"⟩, ReserveResult.no_change),
     (⟨"03/Jan/2025", "Friday", 3, "e3"⟩, ReserveResult.success)]).2.1
    1 (by decide) rfl

/-! ### Backoff multiplier -/

/-- **C9 counterexample.** The claim that the backoff multiplier actually
increases under repeated cycle-level errors is false: after two
consecutive `cycleError` outcomes it still equals its initial value 1.0
and has not increased. -/
theorem backoff_growth_c9_counterexample :
    backoff_after_cycles backoff_init
      [CycleOutcome.cycleError, CycleOutcome.cycleError] = backoff_init ∧
    ¬ backoff_init < backoff_after_cycles backoff_init
      [CycleOutcome.cycleError, CycleOutcome.cycleError] :=
  ⟨rfl, lt_irrefl backoff_init⟩

/-- **C9 (amended).** The backoff multiplier is initialized to 1.0 and
never modified by the cycle loop: it is constant across every sequence of
cycle outcomes, hence always ≥ 1.0 and non-decreasing, and the sleep it
scales is exactly the mode-sampled base times the multiplier — but it
never grows, under repeated cycle errors or otherwise. -/
theorem backoff_constant_c9_amended :
    backoff_init = 1 ∧
    (∀ (b : Rat) (l : List CycleOutcome), backoff_after_cycles b l = b) ∧
    (∀ l : List CycleOutcome, 1 ≤ backoff_after_cycles backoff_init l) ∧
    (∀ delay b : Rat, sleep_actual delay b = delay * b) := by
  have hconst : ∀ (b : Rat) (l : List CycleOutcome), backoff_after_cycles b l = b := by
    intro b l
    induction l generalizing b with
    | nil => rfl
    | cons o rest ih => exact ih b
  exact ⟨rfl, hconst, fun l => le_of_eq (hconst backoff_init l).symm, fun _ _ => rfl⟩
